import Mathlib

/-!
Shallow embedding of `baselines/cifar/data_utils.py` (CIFAR data utilities
of the uncertainty-baselines repository).

Modelling conventions:
* images are flat pixel lists of exact rationals (`Img := List ℚ`); the
  channel of pixel `i` is `i % 3` (channels-last layout), which is how the
  per-channel mean/std broadcast of `normalize_convert_image` acts;
* numeric precision (float32 / bfloat16) is abstracted to exact rational
  arithmetic, and `tf.image.convert_image_dtype` is the identity on the
  rational model;
* random draws (Beta mix weight, Dirichlet branch weights, uniform depths,
  crop/flip/distort) are externalized: samplers become explicit function
  or data parameters, so the embedded functions are deterministic in the
  sample;
* the external dataset catalog is abstracted: `load_dataset` records the
  catalog query, the warning and the data load as an ordered event trace,
  and the tfds split-specifier strings become the `SliceSpec` datatype;
* Python `ValueError` / `KeyError` become `Except String`.
-/

abbrev Img := List ℚ

/-- Per-channel mean `[0.4914, 0.4822, 0.4465]` from `normalize_convert_image`. -/
def channel_mean (c : ℕ) : ℚ :=
  if c % 3 = 0 then 4914/10000 else if c % 3 = 1 then 4822/10000 else 4465/10000

/-- Per-channel std `[0.2023, 0.1994, 0.2010]` from `normalize_convert_image`. -/
def channel_std (c : ℕ) : ℚ :=
  if c % 3 = 0 then 2023/10000 else if c % 3 = 1 then 1994/10000 else 2010/10000

/-- Recursive worker for `normalize_convert_image`: pixel at absolute
position `k` is standardized with the mean/std of channel `k % 3`. -/
def normalize_go (k : ℕ) : Img → Img
  | [] => []
  | v :: rest => (v - channel_mean k) / channel_std k :: normalize_go (k + 1) rest

/-- `normalize_convert_image(input_image, dtype)`: dtype conversion (exact in
the rational model) followed by per-channel mean/std standardization. -/
def normalize_convert_image (img : Img) : Img := normalize_go 0 img

/-- Elementwise tensor addition (`mix += ...`, `a + b` on same-shape tensors). -/
def imgAdd (a b : Img) : Img := List.zipWith (fun x y => x + y) a b

/-- Scalar-tensor product (`w * img`). -/
def imgSmul (c : ℚ) (a : Img) : Img := a.map (fun v => c * v)

/-- `tf.zeros_like(image)` (cast to float32 is exact in the rational model). -/
def imgZero (a : Img) : Img := a.map (fun _ => (0 : ℚ))

/-- The random draws consumed by one call of `augment_and_mix`:
the Beta(prob_coeff, prob_coeff) sample `mix_weight`, the
Dirichlet([prob_coeff] * width) sample `dirichlet`, and the
`tf.random.uniform([width], minval=1, maxval=4)` sample `rand_depths`. -/
structure MixRandomness where
  mix_weight : ℚ
  dirichlet : List ℚ
  rand_depths : List ℕ
deriving Inhabited, DecidableEq, Repr

/-- Lines 169-172: `branch_weights` is the Dirichlet sample when `width > 1`
and the constant `[1.]` otherwise. -/
def branch_weights (width : ℕ) (r : MixRandomness) : List ℚ :=
  if 1 < width then r.dirichlet else [1]

/-- Lines 174-180: per-branch chain depths; the uniform draws on `[1,4)` when
`depth < 0`, otherwise the constant vector `[depth] * width`. -/
def branch_depths (depth : ℤ) (width : ℕ) (r : MixRandomness) : List ℕ :=
  if depth < 0 then r.rand_depths else List.replicate width depth.toNat

/-- Lines 184-186: branch `i` starts from the original image and applies the
augmenter's distortion `branch_depths[i]` times in sequence. -/
def branch_image (image : Img) (depth : ℤ) (width : ℕ)
    (augmenter : Img → Img) (r : MixRandomness) (i : ℕ) : Img :=
  augmenter^[(branch_depths depth width r).getD i 0] image

/-- `augment_and_mix(image, depth, width, prob_coeff, augmenter, dtype)`
(lines 164-191).  `prob_coeff` parameterizes the Beta/Dirichlet samplers,
whose draws arrive in `r`; the loop over `tf.range(width)` accumulating
`branch_weights[i] * normalize_convert_image(branch_img)` into `mix` is the
fold, and the result is `mix_weight * mix + (1 - mix_weight) *
normalize_convert_image(image)`. -/
def augment_and_mix (image : Img) (depth : ℤ) (width : ℕ) (prob_coeff : ℚ)
    (augmenter : Img → Img) (r : MixRandomness) : Img :=
  imgAdd
    (imgSmul r.mix_weight
      ((List.range width).foldl
        (fun acc i =>
          imgAdd acc
            (imgSmul ((branch_weights width r).getD i 0)
              (normalize_convert_image (branch_image image depth width augmenter r i))))
        (imgZero image)))
    (imgSmul (1 - r.mix_weight) (normalize_convert_image image))

/-- The augmentation-hyperparameter dict `aug_params`.  Each recognized key
is an `Option` field; `none` models the key being absent from the dict. -/
structure AugParams where
  adaptive_mixup : Option Bool := none
  random_augment : Option Bool := none
  mixup_alpha : Option ℚ := none
  ensemble_size : Option ℕ := none
  label_smoothing : Option ℚ := none
  mixup_coeff : Option (List (List ℚ)) := none
  augmix : Option Bool := none
  augmix_depth : Option ℤ := none
  augmix_width : Option ℕ := none
  augmix_prob_coeff : Option ℚ := none
  aug_count : Option ℕ := none
deriving DecidableEq, Repr

/-- Python `d[key]` on a possibly-missing key: `KeyError` when absent. -/
def getKey {α : Type} (v : Option α) (k : String) : Except String α :=
  match v with
  | none => Except.error ("KeyError: " ++ k)
  | some a => Except.ok a

/-- `tf.ones([ensemble_size, num_classes])` as a rational matrix. -/
def onesMatrix (rows cols : ℕ) : List (List ℚ) :=
  List.replicate rows (List.replicate cols 1)

/-- `_augmix(image, params, augmenter, dtype)` (lines 194-206): reads the
four augmix keys from the params dict (`KeyError` when absent), builds
`aug_count` augment-and-mix variants, each consuming its own randomness
`rs[k]`, and stacks the normalized unaugmented image in front of them. -/
def _augmix (image : Img) (params : AugParams) (augmenter : Img → Img)
    (rs : List MixRandomness) : Except String (List Img) :=
  match params.augmix_depth with
  | none => Except.error "KeyError: augmix_depth"
  | some depth =>
    match params.augmix_width with
    | none => Except.error "KeyError: augmix_width"
    | some width =>
      match params.augmix_prob_coeff with
      | none => Except.error "KeyError: augmix_prob_coeff"
      | some prob_coeff =>
        match params.aug_count with
        | none => Except.error "KeyError: aug_count"
        | some count =>
          Except.ok (normalize_convert_image image ::
            (List.range count).map (fun k =>
              augment_and_mix image depth width prob_coeff augmenter (rs.getD k default)))

/-- The three dataset splits the loader distinguishes: `tfds.Split.TRAIN`,
`tfds.Split.TEST`, and the pseudo-split string `'validation'`. -/
inductive Split
  | train
  | test
  | validation
deriving DecidableEq, Repr

/-- The external image ops used by `preprocess` on the training split
(`tf.image.resize_with_crop_or_pad` to `(H+4, W+4)`, `tf.image.random_crop`
back to the original shape, `tf.image.random_flip_left_right`), with their
randomness internalized into the supplied functions. -/
structure ImageOps where
  resize_with_crop_or_pad : Img → Img
  random_crop : Img → Img
  random_flip_left_right : Img → Img

/-- Lines 94-97: the geometric pipeline applied on the training split. -/
def train_geometry (ops : ImageOps) (image : Img) : Img :=
  ops.random_flip_left_right (ops.random_crop (ops.resize_with_crop_or_pad image))

/-- The image part of a preprocessed example: a single tensor, or a stack of
tensors produced by `tf.stack` (random augment or augmix). -/
inductive ImageOut
  | single (img : Img)
  | stacked (imgs : List Img)
deriving DecidableEq, Repr

/-- Broadcast of `normalize_convert_image` over a possibly stacked image. -/
def normalizeOut : ImageOut → ImageOut
  | ImageOut.single i => ImageOut.single (normalize_convert_image i)
  | ImageOut.stacked l => ImageOut.stacked (l.map normalize_convert_image)

/-- The image path of `preprocess` (lines 91-110): training-split geometry,
the optional random-augment stack (reading `aug_params['aug_count']`), then
`if split == TRAIN and aug_params['augmix']` — a direct dict lookup that
raises `KeyError` when the key is absent (the `and` short-circuits on
non-training splits) — and otherwise the `elif normalize` standardization. -/
def preprocess_image (split : Split) (norm : Bool) (p : AugParams)
    (ops : ImageOps) (augmenter : Img → Img) (rs : List MixRandomness)
    (image0 : Img) : Except String ImageOut :=
  let base := if split = Split.train then train_geometry ops image0 else image0
  let st : Except String ImageOut :=
    if split = Split.train ∧ p.random_augment.getD false = true then
      match p.aug_count with
      | none => Except.error "KeyError: aug_count"
      | some count =>
          Except.ok (ImageOut.stacked ((List.range count).map (fun _ => augmenter base)))
    else Except.ok (ImageOut.single base)
  match st with
  | Except.error e => Except.error e
  | Except.ok st0 =>
    if split = Split.train then
      match p.augmix with
      | none => Except.error "KeyError: augmix"
      | some am =>
        if am then
          match st0 with
          | ImageOut.single img =>
            (match _augmix img p augmenter rs with
             | Except.error e => Except.error e
             | Except.ok l => Except.ok (ImageOut.stacked l))
          | ImageOut.stacked _ =>
              Except.error "augmix applied to a random-augment stack is outside the model"
        else if norm then Except.ok (normalizeOut st0) else Except.ok st0
    else if norm then Except.ok (normalizeOut st0) else Except.ok st0

/-- The label part of a preprocessed example: a one-hot probability vector or
the scalar label cast to the active precision (exact in the model). -/
inductive LabelOut
  | onehot (v : List ℚ)
  | scalar (v : ℚ)
deriving DecidableEq, Repr

/-- `tf.one_hot(label, num_classes)` on an integer label. -/
def one_hot (label num_classes : ℕ) : List ℚ :=
  (List.range num_classes).map (fun i => if i = label then 1 else 0)

/-- Lines 86-89 of `load_dataset`: the `onehot` flag is set exactly when
`mixup_alpha > 0 or label_smoothing > 0` (dict defaults `0` / `0.`). -/
def onehot_flag (p : AugParams) : Bool :=
  if 0 < p.mixup_alpha.getD 0 ∨ 0 < p.label_smoothing.getD 0 then true else false

/-- Lines 112-116: the label path of `preprocess`: one-hot on the training
split when the `onehot` flag is set, otherwise a cast to the active dtype. -/
def preprocess_label (split : Split) (onehot : Bool) (num_classes : ℕ)
    (label : ℕ) : LabelOut :=
  if split = Split.train ∧ onehot = true then LabelOut.onehot (one_hot label num_classes)
  else LabelOut.scalar (label : ℚ)

/-- Lines 76-85 of `load_dataset`: default the params dict, and lazily insert
`mixup_coeff = tf.ones([ensemble_size, num_classes])` when adaptive mixup is
requested and the key is not yet present. -/
def resolve_aug_params (num_classes : ℕ) (aug_params : Option AugParams) : AugParams :=
  let p := aug_params.getD {}
  if p.adaptive_mixup.getD false && p.mixup_coeff.isNone then
    { p with mixup_coeff := some (onesMatrix (p.ensemble_size.getD 1) num_classes) }
  else p

/-- The tfds split-specifier the loader passes to `tfds.load`: a whole split,
a head slice `s[:pct%]`, or a tail slice `s[pct%:]`. -/
inductive SliceSpec
  | full (s : Split)
  | headPct (s : Split) (pct : ℤ)
  | tailPct (s : Split) (pct : ℤ)
deriving DecidableEq, Repr

/-- Observable interactions of `load_dataset` with the outside world, in
program order: the catalog metadata query (`tfds.builder(name).info`), the
`logging.warning` call, and the actual `tfds.load` of a slice. -/
inductive Event
  | catalogQuery
  | warning
  | dataLoad (slice : SliceSpec)
deriving DecidableEq, Repr

/-- Which batch-level mixup stage lines 151-159 append to the pipeline. -/
inductive MixupStage
  | no_mixup
  | plain
  | adaptive
deriving DecidableEq, Repr

/-- The construction result of `load_dataset`: the slice handed to
`tfds.load`, the resolved params dict, the `onehot` flag, whether the
shuffle-and-repeat stage was added, and the batch-mixup stage. -/
structure LoadResult where
  slice : SliceSpec
  aug_params : AugParams
  onehot : Bool
  shuffle_repeat : Bool
  mixup_stage : MixupStage
deriving DecidableEq, Repr

/-- Split resolution, lines 119-143.  With `proportion == 1.0` and a
validation set, the `'validation'` pseudo-split gets the tail
`train[int(100*(1-validation_proportion))%:]`; the train split gets the
hard-coded head `train[:95%]` — line 129 ignores the `new_split` that lines
127-128 computed from `validation_proportion`; the test split is loaded
unmodified.  With `proportion < 1.0` a head slice of `train`/`test` sized
`int(100*proportion)` is used.  Python `int()` on these non-negative values
is the floor. -/
def resolve_slice (split : Split) (proportion validation_proportion : ℚ)
    (validation_set : Bool) : SliceSpec :=
  if proportion = 1 then
    if validation_set then
      if split = Split.validation then
        SliceSpec.tailPct Split.train ⌊100 * (1 - validation_proportion)⌋
      else if split = Split.train then
        SliceSpec.headPct Split.train 95
      else SliceSpec.full split
    else SliceSpec.full split
  else
    if split = Split.train then SliceSpec.headPct Split.train ⌊100 * proportion⌋
    else SliceSpec.headPct Split.test ⌊100 * proportion⌋

/-- The constructed pipeline summary of a successful `load_dataset` call:
the slice, the resolved params dict, the `onehot` flag (lines 86-89), the
shuffle-and-repeat stage (lines 144-145) and the batch-mixup stage
(lines 151-159). -/
def load_result (split : Split) (proportion validation_proportion : ℚ)
    (validation_set : Bool) (aug_params : Option AugParams)
    (num_classes : ℕ) : LoadResult :=
  { slice := resolve_slice split proportion validation_proportion validation_set
    aug_params := resolve_aug_params num_classes aug_params
    onehot := onehot_flag (resolve_aug_params num_classes aug_params)
    shuffle_repeat := decide (split = Split.train)
    mixup_stage :=
      if 0 < (resolve_aug_params num_classes aug_params).mixup_alpha.getD 0
          ∧ split = Split.train then
        (if (resolve_aug_params num_classes aug_params).adaptive_mixup.getD false then
          MixupStage.adaptive
        else MixupStage.plain)
      else MixupStage.no_mixup }

/-- `load_dataset(split, batch_size, name, ...)` (lines 36-161), returning
the ordered event trace together with the result (or the `ValueError`).
Lines 64-67 validate the two proportions before the line-72 catalog query;
the `proportion < 1.0` path logs a warning (lines 136-137) before loading. -/
def load_dataset (split : Split) (name : String) (batch_size : ℕ)
    (proportion validation_proportion : ℚ) (validation_set : Bool)
    (aug_params : Option AugParams) (num_classes : ℕ) :
    List Event × Except String LoadResult :=
  if proportion < 0 ∨ 1 < proportion then
    ([], Except.error "proportion needs to lie in the range [0, 1]")
  else if validation_proportion < 0 ∨ 1 < validation_proportion then
    ([], Except.error "validation_proportion needs to lie in the range [0, 1]")
  else
    ([Event.catalogQuery] ++
        (if proportion = 1 then [] else [Event.warning]) ++
        [Event.dataLoad (resolve_slice split proportion validation_proportion validation_set)],
      Except.ok (load_result split proportion validation_proportion validation_set
        aug_params num_classes))

/-! ### Pointwise lemmas for the image algebra -/

theorem getD_imgAdd (a b : Img) (j : ℕ) (ha : j < a.length) (hb : j < b.length) :
    (imgAdd a b).getD j 0 = a.getD j 0 + b.getD j 0 := by
  induction a generalizing b j with
  | nil => simp at ha
  | cons x xs ih =>
    cases b with
    | nil => simp at hb
    | cons y ys =>
      cases j with
      | zero => simp [imgAdd]
      | succ k =>
        simp only [imgAdd, List.zipWith_cons_cons, List.getD_cons_succ] at *
        exact ih ys k (by simpa using ha) (by simpa using hb)

theorem getD_imgSmul (c : ℚ) (a : Img) (j : ℕ) :
    (imgSmul c a).getD j 0 = c * a.getD j 0 := by
  induction a generalizing j with
  | nil => simp [imgSmul]
  | cons x xs ih =>
    cases j with
    | zero => simp [imgSmul]
    | succ k => simpa [imgSmul] using ih k

theorem getD_imgZero (a : Img) (j : ℕ) : (imgZero a).getD j 0 = 0 := by
  induction a generalizing j with
  | nil => simp [imgZero]
  | cons x xs ih =>
    cases j with
    | zero => simp [imgZero]
    | succ k => simpa [imgZero] using ih k

theorem length_imgSmul (c : ℚ) (a : Img) : (imgSmul c a).length = a.length := by
  simp [imgSmul]

theorem length_imgZero (a : Img) : (imgZero a).length = a.length := by
  simp [imgZero]

theorem length_normalize_go (k : ℕ) (l : Img) :
    (normalize_go k l).length = l.length := by
  induction l generalizing k with
  | nil => rfl
  | cons v rest ih => simp [normalize_go, ih]

theorem length_normalize (l : Img) :
    (normalize_convert_image l).length = l.length :=
  length_normalize_go 0 l

theorem length_iterate_of (augmenter : Img → Img)
    (haug : ∀ im : Img, (augmenter im).length = im.length) (n : ℕ) (im : Img) :
    (augmenter^[n] im).length = im.length := by
  induction n with
  | zero => rfl
  | succ m ih => rw [Function.iterate_succ_apply', haug, ih]

theorem length_imgAdd (a b : Img) :
    (imgAdd a b).length = min a.length b.length := by
  simp [imgAdd]

theorem length_foldl_imgAdd (g : ℕ → Img) (init : Img) (L : ℕ)
    (hinit : init.length = L) (hg : ∀ i, (g i).length = L) (n : ℕ) :
    ((List.range n).foldl (fun acc i => imgAdd acc (g i)) init).length = L := by
  induction n with
  | zero => simpa
  | succ m ih =>
    rw [List.range_succ, List.foldl_append, List.foldl_cons, List.foldl_nil]
    rw [length_imgAdd, ih, hg m, Nat.min_self]

theorem getD_foldl_imgAdd (g : ℕ → Img) (init : Img) (L : ℕ)
    (hinit : init.length = L) (hg : ∀ i, (g i).length = L) (n j : ℕ) (hj : j < L) :
    ((List.range n).foldl (fun acc i => imgAdd acc (g i)) init).getD j 0
      = init.getD j 0 + ∑ i in Finset.range n, (g i).getD j 0 := by
  induction n with
  | zero => simp
  | succ m ih =>
    rw [List.range_succ, List.foldl_append, List.foldl_cons, List.foldl_nil]
    rw [getD_imgAdd _ _ j
      (by rw [length_foldl_imgAdd g init L hinit hg]; exact hj)
      (by rw [hg m]; exact hj)]
    rw [ih, Finset.sum_range_succ, add_assoc]

/-- The central pointwise description of `augment_and_mix`: pixel `j` of the
output is `mix_weight * (∑ i, branch_weights[i] * normalize(branch_i)[j]) +
(1 - mix_weight) * normalize(image)[j]`, for a shape-preserving augmenter. -/
theorem augment_and_mix_getD (image : Img) (depth : ℤ) (width : ℕ) (pc : ℚ)
    (augmenter : Img → Img) (r : MixRandomness)
    (haug : ∀ im : Img, (augmenter im).length = im.length)
    (j : ℕ) (hj : j < image.length) :
    (augment_and_mix image depth width pc augmenter r).getD j 0 =
      r.mix_weight * (∑ i in Finset.range width,
        (branch_weights width r).getD i 0 *
          (normalize_convert_image (branch_image image depth width augmenter r i)).getD j 0)
      + (1 - r.mix_weight) * (normalize_convert_image image).getD j 0 := by
  have hg : ∀ i : ℕ,
      (imgSmul ((branch_weights width r).getD i 0)
        (normalize_convert_image (branch_image image depth width augmenter r i))).length
        = image.length := by
    intro i
    rw [length_imgSmul, length_normalize, branch_image,
      length_iterate_of augmenter haug]
  unfold augment_and_mix
  rw [getD_imgAdd _ _ j
    (by
      rw [length_imgSmul]
      rw [length_foldl_imgAdd _ _ image.length (length_imgZero image) hg width]
      exact hj)
    (by rw [length_imgSmul, length_normalize]; exact hj)]
  rw [getD_imgSmul, getD_imgSmul]
  rw [getD_foldl_imgAdd _ _ image.length (length_imgZero image) hg width j hj]
  rw [getD_imgZero, zero_add]
  rw [Finset.sum_congr rfl (fun i _ => getD_imgSmul ((branch_weights width r).getD i 0)
    (normalize_convert_image (branch_image image depth width augmenter r i)) j)]

theorem getD_replicate_of_lt {α : Type} (n i : ℕ) (a d : α) (h : i < n) :
    (List.replicate n a).getD i d = a := by
  induction n generalizing i with
  | zero => omega
  | succ m ih =>
    cases i with
    | zero => simp
    | succ k =>
      rw [List.replicate_succ, List.getD_cons_succ]
      exact ih k (by omega)

theorem getD_mem_of_lt {α : Type} (l : List α) (i : ℕ) (d : α)
    (h : i < l.length) : l.getD i d ∈ l := by
  induction l generalizing i with
  | nil => simp at h
  | cons x xs ih =>
    cases i with
    | zero => simp
    | succ k =>
      rw [List.getD_cons_succ]
      exact List.mem_cons_of_mem x (ih k (by simpa using h))

/-- C3: for every image and every `width ≥ 1`, `augment_and_mix` returns
`mix_weight * (∑ i, branch_weights[i] * normalize(branch_i)) +
(1 - mix_weight) * normalize(original)` pixelwise, where `branch_weights`
is the sampled Dirichlet vector when `width > 1` and exactly `[1]` when
`width = 1` (for a shape-preserving augmenter). -/
theorem augment_and_mix_formula (image : Img) (depth : ℤ) (width : ℕ) (pc : ℚ)
    (augmenter : Img → Img) (r : MixRandomness)
    (haug : ∀ im : Img, (augmenter im).length = im.length)
    (hw : 1 ≤ width) (j : ℕ) (hj : j < image.length) :
    (augment_and_mix image depth width pc augmenter r).getD j 0 =
      r.mix_weight * (∑ i in Finset.range width,
        (branch_weights width r).getD i 0 *
          (normalize_convert_image (branch_image image depth width augmenter r i)).getD j 0)
      + (1 - r.mix_weight) * (normalize_convert_image image).getD j 0 ∧
    (1 < width → branch_weights width r = r.dirichlet) ∧
    (width = 1 → branch_weights width r = [1]) :=
  ⟨augment_and_mix_getD image depth width pc augmenter r haug j hj,
   fun h => by simp [branch_weights, h],
   fun h => by simp [branch_weights, h]⟩

theorem augment_and_mix_formula_witness :
    (∀ im : Img, (id im).length = im.length) ∧ 1 ≤ 1 ∧ 0 < ([1] : Img).length ∧
    ((augment_and_mix [1] 0 1 1 id (MixRandomness.mk 0 [] [])).getD 0 0 =
        (MixRandomness.mk 0 [] []).mix_weight * (∑ i in Finset.range 1,
          (branch_weights 1 (MixRandomness.mk 0 [] [])).getD i 0 *
            (normalize_convert_image
              (branch_image [1] 0 1 id (MixRandomness.mk 0 [] []) i)).getD 0 0)
        + (1 - (MixRandomness.mk 0 [] []).mix_weight) *
            (normalize_convert_image [1]).getD 0 0 ∧
      (1 < 1 → branch_weights 1 (MixRandomness.mk 0 [] [])
          = (MixRandomness.mk 0 [] []).dirichlet) ∧
      (1 = 1 → branch_weights 1 (MixRandomness.mk 0 [] []) = [1])) :=
  ⟨fun _ => rfl, le_refl 1, by decide,
   augment_and_mix_formula [1] 0 1 1 id (MixRandomness.mk 0 [] [])
     (fun _ => rfl) (le_refl 1) 0 (by decide)⟩

/-- C4: in `augment_and_mix`, a fixed `depth ≥ 0` makes every one of the
`width` branches apply the augmenter exactly `depth` times in sequence,
while `depth < 0` makes branch `i` use its own uniform draw from `[1,4)`
(the draws arrive one per branch in `rand_depths`, whose entries lie in
`[1,4)` by the sampler's support). -/
theorem branch_depth_resolution (image : Img) (depth : ℤ) (width : ℕ)
    (augmenter : Img → Img) (r : MixRandomness)
    (hlen : r.rand_depths.length = width)
    (hsupp : ∀ d ∈ r.rand_depths, 1 ≤ d ∧ d < 4) :
    (0 ≤ depth → ∀ i, i < width →
        branch_image image depth width augmenter r i = augmenter^[depth.toNat] image) ∧
    (depth < 0 → ∀ i, i < width →
        branch_image image depth width augmenter r i
            = augmenter^[r.rand_depths.getD i 0] image ∧
          1 ≤ (branch_depths depth width r).getD i 0 ∧
          (branch_depths depth width r).getD i 0 < 4) := by
  constructor
  · intro hd i hi_
    unfold branch_image branch_depths
    rw [if_neg (by omega), getD_replicate_of_lt width i depth.toNat 0 hi_]
  · intro hd i hi_
    have hbd : branch_depths depth width r = r.rand_depths := by
      unfold branch_depths
      rw [if_pos hd]
    have hmem : r.rand_depths.getD i 0 ∈ r.rand_depths :=
      getD_mem_of_lt r.rand_depths i 0 (by rw [hlen]; exact hi_)
    refine ⟨by unfold branch_image; rw [hbd], ?_, ?_⟩
    · rw [hbd]
      exact (hsupp _ hmem).1
    · rw [hbd]
      exact (hsupp _ hmem).2

theorem branch_depth_resolution_witness :
    ([2, 3] : List ℕ).length = 2 ∧ (∀ d ∈ ([2, 3] : List ℕ), 1 ≤ d ∧ d < 4) ∧
    ((0 ≤ (-1 : ℤ) → ∀ i, i < 2 →
        branch_image [1] (-1) 2 id (MixRandomness.mk 0 [] [2, 3]) i
          = id^[(-1 : ℤ).toNat] [1]) ∧
      ((-1 : ℤ) < 0 → ∀ i, i < 2 →
        branch_image [1] (-1) 2 id (MixRandomness.mk 0 [] [2, 3]) i
            = id^[(MixRandomness.mk 0 [] [2, 3]).rand_depths.getD i 0] [1] ∧
          1 ≤ (branch_depths (-1) 2 (MixRandomness.mk 0 [] [2, 3])).getD i 0 ∧
          (branch_depths (-1) 2 (MixRandomness.mk 0 [] [2, 3])).getD i 0 < 4)) :=
  ⟨rfl, by decide,
   branch_depth_resolution [1] (-1) 2 id (MixRandomness.mk 0 [] [2, 3]) rfl (by decide)⟩

/-- C7: when the sampled `mix_weight` lies in `[0,1]` and the sampled branch
weights are non-negative and sum to `1`, every pixel of the
`augment_and_mix` output lies between any lower and upper bound common to
that pixel of the normalized branch images and of the normalized original
image — in particular between their minimum and maximum: the output is a
convex combination of the normalized inputs. -/
theorem augment_and_mix_convex (image : Img) (depth : ℤ) (width : ℕ) (pc : ℚ)
    (augmenter : Img → Img) (r : MixRandomness)
    (haug : ∀ im : Img, (augmenter im).length = im.length)
    (hmw0 : 0 ≤ r.mix_weight) (hmw1 : r.mix_weight ≤ 1)
    (hbw : ∀ i, i < width → 0 ≤ (branch_weights width r).getD i 0)
    (hsum : ∑ i in Finset.range width, (branch_weights width r).getD i 0 = 1)
    (j : ℕ) (hj : j < image.length) (lo hi : ℚ)
    (hlo : ∀ i, i < width →
      lo ≤ (normalize_convert_image (branch_image image depth width augmenter r i)).getD j 0)
    (hhi : ∀ i, i < width →
      (normalize_convert_image (branch_image image depth width augmenter r i)).getD j 0 ≤ hi)
    (hlo0 : lo ≤ (normalize_convert_image image).getD j 0)
    (hhi0 : (normalize_convert_image image).getD j 0 ≤ hi) :
    lo ≤ (augment_and_mix image depth width pc augmenter r).getD j 0 ∧
      (augment_and_mix image depth width pc augmenter r).getD j 0 ≤ hi := by
  rw [augment_and_mix_getD image depth width pc augmenter r haug j hj]
  have hSlo : lo ≤ ∑ i in Finset.range width,
      (branch_weights width r).getD i 0 *
        (normalize_convert_image (branch_image image depth width augmenter r i)).getD j 0 := by
    calc lo = ∑ i in Finset.range width, (branch_weights width r).getD i 0 * lo := by
          rw [← Finset.sum_mul, hsum, one_mul]
      _ ≤ _ := Finset.sum_le_sum (fun i hmemi =>
          mul_le_mul_of_nonneg_left (hlo i (Finset.mem_range.mp hmemi))
            (hbw i (Finset.mem_range.mp hmemi)))
  have hShi : (∑ i in Finset.range width,
      (branch_weights width r).getD i 0 *
        (normalize_convert_image (branch_image image depth width augmenter r i)).getD j 0) ≤ hi := by
    calc (∑ i in Finset.range width,
        (branch_weights width r).getD i 0 *
          (normalize_convert_image (branch_image image depth width augmenter r i)).getD j 0)
        ≤ ∑ i in Finset.range width, (branch_weights width r).getD i 0 * hi :=
          Finset.sum_le_sum (fun i hmemi =>
            mul_le_mul_of_nonneg_left (hhi i (Finset.mem_range.mp hmemi))
              (hbw i (Finset.mem_range.mp hmemi)))
      _ = hi := by rw [← Finset.sum_mul, hsum, one_mul]
  have hc1 : 0 ≤ 1 - r.mix_weight := by linarith
  have h1 := mul_le_mul_of_nonneg_left hSlo hmw0
  have h2 := mul_le_mul_of_nonneg_left hlo0 hc1
  have h3 := mul_le_mul_of_nonneg_left hShi hmw0
  have h4 := mul_le_mul_of_nonneg_left hhi0 hc1
  have e1 : r.mix_weight * lo + (1 - r.mix_weight) * lo = lo := by ring
  have e2 : r.mix_weight * hi + (1 - r.mix_weight) * hi = hi := by ring
  constructor
  · linarith
  · linarith

theorem one_hot_length (label n : ℕ) : (one_hot label n).length = n := by
  simp [one_hot]

theorem one_hot_sum (label n : ℕ) :
    (one_hot label n).sum = if label < n then 1 else 0 := by
  induction n with
  | zero => simp [one_hot]
  | succ m ih =>
    rw [one_hot, List.range_succ, List.map_append, List.sum_append]
    rw [show ((List.range m).map fun i => if i = label then (1 : ℚ) else 0).sum
        = (one_hot label m).sum from rfl, ih]
    simp only [List.map_cons, List.map_nil, List.sum_cons, List.sum_nil, add_zero]
    by_cases h1 : label < m
    · rw [if_pos h1, if_neg (by omega), if_pos (by omega)]
      norm_num
    · by_cases h2 : m = label
      · rw [if_neg h1, if_pos h2, if_pos (by omega)]
        norm_num
      · rw [if_neg h1, if_neg h2, if_neg (by omega)]
        norm_num

/-- C5: for an in-range label, `preprocess` on the training split returns a
one-hot probability vector over `num_classes` iff `mixup_alpha > 0` or
`label_smoothing > 0`; otherwise — and on every non-training split — it
returns the scalar label unchanged in value (the dtype cast is exact in the
model). -/
theorem preprocess_label_spec (p : AugParams) (n label : ℕ) (hlb : label < n) :
    ((∃ v, preprocess_label Split.train (onehot_flag p) n label = LabelOut.onehot v) ↔
        (0 < p.mixup_alpha.getD 0 ∨ 0 < p.label_smoothing.getD 0)) ∧
    (¬(0 < p.mixup_alpha.getD 0 ∨ 0 < p.label_smoothing.getD 0) →
        preprocess_label Split.train (onehot_flag p) n label
          = LabelOut.scalar (label : ℚ)) ∧
    ((0 < p.mixup_alpha.getD 0 ∨ 0 < p.label_smoothing.getD 0) →
        preprocess_label Split.train (onehot_flag p) n label
            = LabelOut.onehot (one_hot label n) ∧
          (one_hot label n).length = n ∧ (one_hot label n).sum = 1) ∧
    (∀ s : Split, s ≠ Split.train →
        preprocess_label s (onehot_flag p) n label = LabelOut.scalar (label : ℚ)) := by
  by_cases h : 0 < p.mixup_alpha.getD 0 ∨ 0 < p.label_smoothing.getD 0
  · have hf : onehot_flag p = true := by simp [onehot_flag, h]
    refine ⟨?_, fun hn => absurd h hn, fun _ => ⟨?_, one_hot_length label n, ?_⟩, ?_⟩
    · constructor
      · intro _
        exact h
      · intro _
        exact ⟨one_hot label n, by simp [preprocess_label, hf]⟩
    · simp [preprocess_label, hf]
    · rw [one_hot_sum, if_pos hlb]
    · intro s hs
      simp [preprocess_label, hs]
  · have hf : onehot_flag p = false := by simp [onehot_flag, h]
    refine ⟨?_, fun _ => by simp [preprocess_label, hf], fun hcon => absurd hcon h, ?_⟩
    · constructor
      · intro hex
        obtain ⟨v, hv⟩ := hex
        rw [preprocess_label, if_neg (by simp [hf])] at hv
        exact absurd hv (by simp)
      · intro hcon
        exact absurd hcon h
    · intro s hs
      simp [preprocess_label, hs]

theorem preprocess_label_spec_witness :
    (3 < 10) ∧
    (((∃ v, preprocess_label Split.train
          (onehot_flag { mixup_alpha := some 1 }) 10 3 = LabelOut.onehot v) ↔
        (0 < (AugParams.mixup_alpha { mixup_alpha := some 1 }).getD 0 ∨
          0 < (AugParams.label_smoothing { mixup_alpha := some 1 }).getD 0)) ∧
      (¬(0 < (AugParams.mixup_alpha { mixup_alpha := some 1 }).getD 0 ∨
          0 < (AugParams.label_smoothing { mixup_alpha := some 1 }).getD 0) →
        preprocess_label Split.train (onehot_flag { mixup_alpha := some 1 }) 10 3
          = LabelOut.scalar 3) ∧
      ((0 < (AugParams.mixup_alpha { mixup_alpha := some 1 }).getD 0 ∨
          0 < (AugParams.label_smoothing { mixup_alpha := some 1 }).getD 0) →
        preprocess_label Split.train (onehot_flag { mixup_alpha := some 1 }) 10 3
            = LabelOut.onehot (one_hot 3 10) ∧
          (one_hot 3 10).length = 10 ∧ (one_hot 3 10).sum = 1) ∧
      (∀ s : Split, s ≠ Split.train →
        preprocess_label s (onehot_flag { mixup_alpha := some 1 }) 10 3
          = LabelOut.scalar 3)) :=
  ⟨by decide, preprocess_label_spec { mixup_alpha := some 1 } 10 3 (by decide)⟩

/-- C6: with augmix enabled on the training split (and the random-augment
flag off), `preprocess` produces a stack of exactly `aug_count + 1` tensors:
`aug_count` augment-and-mix variants of the geometry-processed image plus
one normalized copy of that unaugmented image. -/
theorem preprocess_augmix_stack (norm : Bool) (p : AugParams) (ops : ImageOps)
    (augmenter : Img → Img) (rs : List MixRandomness) (image0 : Img)
    (hra : p.random_augment.getD false = false)
    (ham : p.augmix = some true)
    (d : ℤ) (w : ℕ) (pc : ℚ) (c : ℕ)
    (hd : p.augmix_depth = some d) (hw : p.augmix_width = some w)
    (hpc : p.augmix_prob_coeff = some pc) (hc : p.aug_count = some c)
    (hc1 : 1 ≤ c) :
    preprocess_image Split.train norm p ops augmenter rs image0 =
      Except.ok (ImageOut.stacked
        (normalize_convert_image (train_geometry ops image0) ::
          (List.range c).map (fun k =>
            augment_and_mix (train_geometry ops image0) d w pc augmenter
              (rs.getD k default)))) ∧
    (normalize_convert_image (train_geometry ops image0) ::
      (List.range c).map (fun k =>
        augment_and_mix (train_geometry ops image0) d w pc augmenter
          (rs.getD k default))).length = c + 1 := by
  constructor
  · simp [preprocess_image, hra, ham, _augmix, hd, hw, hpc, hc]
  · simp

theorem preprocess_augmix_stack_witness :
    ((AugParams.random_augment
        { augmix := some true, augmix_depth := some 1, augmix_width := some 2,
          augmix_prob_coeff := some 1, aug_count := some 2 }).getD false = false) ∧
    (AugParams.augmix
        { augmix := some true, augmix_depth := some 1, augmix_width := some 2,
          augmix_prob_coeff := some 1, aug_count := some 2 } = some true) ∧
    1 ≤ 2 ∧
    (preprocess_image Split.train true
        { augmix := some true, augmix_depth := some 1, augmix_width := some 2,
          augmix_prob_coeff := some 1, aug_count := some 2 }
        (ImageOps.mk id id id) id [] [1] =
      Except.ok (ImageOut.stacked
        (normalize_convert_image (train_geometry (ImageOps.mk id id id) [1]) ::
          (List.range 2).map (fun k =>
            augment_and_mix (train_geometry (ImageOps.mk id id id) [1]) 1 2 1 id
              (([] : List MixRandomness).getD k default)))) ∧
      (normalize_convert_image (train_geometry (ImageOps.mk id id id) [1]) ::
        (List.range 2).map (fun k =>
          augment_and_mix (train_geometry (ImageOps.mk id id id) [1]) 1 2 1 id
            (([] : List MixRandomness).getD k default))).length = 2 + 1) :=
  ⟨rfl, rfl, by decide,
   preprocess_augmix_stack true
     { augmix := some true, augmix_depth := some 1, augmix_width := some 2,
       augmix_prob_coeff := some 1, aug_count := some 2 }
     (ImageOps.mk id id id) id [] [1] rfl rfl 1 2 1 2 rfl rfl rfl rfl (by decide)⟩

/-- C10: on the training split `preprocess` reads `aug_params['augmix']`
with a bare dict lookup, so every config lacking the key — the default
empty config included — fails per-example preprocessing with a key-lookup
error, while the identical configuration succeeds on every non-training
split (the `and` short-circuits the lookup there). -/
theorem preprocess_augmix_keyerror (norm : Bool) (p : AugParams) (ops : ImageOps)
    (augmenter : Img → Img) (rs : List MixRandomness) (image0 : Img)
    (hmiss : p.augmix = none) :
    (∃ k, preprocess_image Split.train norm p ops augmenter rs image0
        = Except.error ("KeyError: " ++ k)) ∧
    (∀ s : Split, s ≠ Split.train →
        ∃ out, preprocess_image s norm p ops augmenter rs image0 = Except.ok out) := by
  constructor
  · by_cases hra : p.random_augment.getD false = true
    · cases hac : p.aug_count with
      | none =>
        refine ⟨"aug_count", ?_⟩
        simp [preprocess_image, hra, hac]
      | some c =>
        refine ⟨"augmix", ?_⟩
        simp [preprocess_image, hra, hac, hmiss]
    · refine ⟨"augmix", ?_⟩
      simp [preprocess_image, hra, hmiss]
  · intro s hs
    cases hn : norm with
    | false => exact ⟨ImageOut.single image0, by simp [preprocess_image, hs]⟩
    | true =>
      exact ⟨normalizeOut (ImageOut.single image0), by simp [preprocess_image, hs]⟩

theorem preprocess_augmix_keyerror_witness :
    (AugParams.augmix {} = none) ∧
    ((∃ k, preprocess_image Split.train true {} (ImageOps.mk id id id) id [] [1]
        = Except.error ("KeyError: " ++ k)) ∧
      (∀ s : Split, s ≠ Split.train →
        ∃ out, preprocess_image s true {} (ImageOps.mk id id id) id [] [1]
          = Except.ok out)) :=
  ⟨rfl, preprocess_augmix_keyerror true {} (ImageOps.mk id id id) id [] [1] rfl⟩

/-- C1 (failing evaluation): with `proportion = 1`, `validation_set = true`,
the train split, and `validation_proportion = 1/2`, the loader slices the
hard-coded head `train[:95%]`, not the head `(1 - validation_proportion)`
= 50% fraction the claim (and the loader's own lines 127-128) require. -/
theorem load_validation_head_hardcoded :
    Except.map LoadResult.slice
        (load_dataset Split.train "cifar10" 128 1 (1/2) true none 10).2
      = Except.ok (SliceSpec.headPct Split.train 95) ∧
    (⌊(100 : ℚ) * (1 - 1/2)⌋ : ℤ) = 50 ∧ (95 : ℤ) ≠ 50 := by
  have h1 : ¬((1 : ℚ) < 0 ∨ 1 < (1 : ℚ)) := by norm_num
  have h2 : ¬((1/2 : ℚ) < 0 ∨ 1 < (1/2 : ℚ)) := by norm_num
  refine ⟨?_, by norm_num, by decide⟩
  have hl : (load_dataset Split.train "cifar10" 128 1 (1/2) true none 10).2
      = Except.ok (load_result Split.train 1 (1/2) true none 10) := by
    simp only [load_dataset, if_neg h1, if_neg h2]
  rw [hl]
  have hs : (load_result Split.train 1 (1/2) true none 10).slice
      = SliceSpec.headPct Split.train 95 := by
    simp [load_result, resolve_slice]
  simp only [Except.map]
  rw [hs]

/-- C2: `load_dataset` raises the configuration `ValueError` iff
`proportion` or `validation_proportion` lies outside `[0,1]`, and when it
does the event trace is empty: no catalog query and no data load happened
before the raise. -/
theorem load_config_error (split : Split) (name : String) (bs : ℕ)
    (pr vpr : ℚ) (vs : Bool) (ap : Option AugParams) (n : ℕ) :
    ((∃ e, (load_dataset split name bs pr vpr vs ap n).2 = Except.error e) ↔
        (pr < 0 ∨ 1 < pr ∨ vpr < 0 ∨ 1 < vpr)) ∧
    ((pr < 0 ∨ 1 < pr ∨ vpr < 0 ∨ 1 < vpr) →
        (load_dataset split name bs pr vpr vs ap n).1 = []) := by
  by_cases h1 : pr < 0 ∨ 1 < pr
  · have hl : load_dataset split name bs pr vpr vs ap n
        = ([], Except.error "proportion needs to lie in the range [0, 1]") := by
      simp [load_dataset, h1]
    rw [hl]
    exact ⟨⟨fun _ => by tauto, fun _ => ⟨_, rfl⟩⟩, fun _ => rfl⟩
  · by_cases h2 : vpr < 0 ∨ 1 < vpr
    · have hl : load_dataset split name bs pr vpr vs ap n
          = ([], Except.error "validation_proportion needs to lie in the range [0, 1]") := by
        simp [load_dataset, h1, h2]
      rw [hl]
      exact ⟨⟨fun _ => by tauto, fun _ => ⟨_, rfl⟩⟩, fun _ => rfl⟩
    · have hl : (load_dataset split name bs pr vpr vs ap n).2
          = Except.ok (load_result split pr vpr vs ap n) := by
        simp [load_dataset, h1, h2]
      refine ⟨⟨?_, fun hcon => absurd hcon (by tauto)⟩,
        fun hcon => absurd hcon (by tauto)⟩
      intro hex
      obtain ⟨e, he⟩ := hex
      rw [hl] at he
      exact absurd he (by simp)

theorem load_config_error_witness :
    (∃ e, (load_dataset Split.train "cifar10" 1 2 0 false none 10).2
        = Except.error e) ∧
    (load_dataset Split.train "cifar10" 1 2 0 false none 10).1 = [] :=
  ⟨(load_config_error Split.train "cifar10" 1 2 0 false none 10).1.mpr
      (Or.inr (Or.inl one_lt_two)),
   (load_config_error Split.train "cifar10" 1 2 0 false none 10).2
      (Or.inr (Or.inl one_lt_two))⟩

/-- C8: for every `proportion` in `[0,1)` (valid `validation_proportion`),
requesting the train or test split succeeds even with
`validation_set = true`: the loader takes the head slice sized
`int(100 * proportion)` of the requested split, ignores the validation
request (the slice does not depend on `validation_set` or
`validation_proportion`), and logs a warning. -/
theorem load_subset_warning (split : Split) (name : String) (bs : ℕ)
    (pr vpr : ℚ) (vs : Bool) (ap : Option AugParams) (n : ℕ)
    (h0 : 0 ≤ pr) (h1 : pr < 1) (h2 : 0 ≤ vpr) (h3 : vpr ≤ 1)
    (hs : split = Split.train ∨ split = Split.test) :
    (load_dataset split name bs pr vpr vs ap n).2
        = Except.ok (load_result split pr vpr vs ap n) ∧
      (load_result split pr vpr vs ap n).slice = SliceSpec.headPct split ⌊100 * pr⌋ ∧
      Event.warning ∈ (load_dataset split name bs pr vpr vs ap n).1 := by
  have hn1 : ¬(pr < 0 ∨ 1 < pr) := by
    push_neg
    exact ⟨h0, le_of_lt h1⟩
  have hn2 : ¬(vpr < 0 ∨ 1 < vpr) := by
    push_neg
    exact ⟨h2, h3⟩
  have hne : ¬(pr = 1) := ne_of_lt h1
  refine ⟨by simp [load_dataset, hn1, hn2], ?_, ?_⟩
  · rcases hs with rfl | rfl
    · simp [load_result, resolve_slice, hne]
    · simp [load_result, resolve_slice, hne]
  · simp [load_dataset, hn1, hn2, hne]

theorem load_subset_warning_witness :
    ((0 : ℚ) ≤ 0 ∧ (0 : ℚ) < 1 ∧
      (Split.train = Split.train ∨ Split.train = Split.test)) ∧
    ((load_dataset Split.train "cifar10" 1 0 0 true none 10).2
        = Except.ok (load_result Split.train 0 0 true none 10) ∧
      (load_result Split.train 0 0 true none 10).slice
          = SliceSpec.headPct Split.train ⌊(100 : ℚ) * 0⌋ ∧
      Event.warning ∈ (load_dataset Split.train "cifar10" 1 0 0 true none 10).1) :=
  ⟨⟨le_refl 0, zero_lt_one, Or.inl rfl⟩,
   load_subset_warning Split.train "cifar10" 1 0 0 true none 10 (le_refl 0)
     zero_lt_one (le_refl 0) zero_le_one (Or.inl rfl)⟩

/-- C9: a valid `load_dataset` call mutates the caller-supplied params dict
in exactly one way: when adaptive mixup is requested and `mixup_coeff` is
absent, `mixup_coeff` is set to the all-ones matrix of shape
`[ensemble_size, num_classes]`; in every other case the dict comes back
unchanged (record equality: every other key untouched). -/
theorem load_aug_params_mutation (split : Split) (name : String) (bs : ℕ)
    (pr vpr : ℚ) (vs : Bool) (p : AugParams) (n : ℕ)
    (h0 : 0 ≤ pr) (h1 : pr ≤ 1) (h2 : 0 ≤ vpr) (h3 : vpr ≤ 1) :
    (load_dataset split name bs pr vpr vs (some p) n).2
        = Except.ok (load_result split pr vpr vs (some p) n) ∧
      (p.adaptive_mixup.getD false = true ∧ p.mixup_coeff = none →
        (load_result split pr vpr vs (some p) n).aug_params
            = { p with mixup_coeff := some (onesMatrix (p.ensemble_size.getD 1) n) } ∧
          (onesMatrix (p.ensemble_size.getD 1) n).length = p.ensemble_size.getD 1 ∧
          (∀ row ∈ onesMatrix (p.ensemble_size.getD 1) n,
            row.length = n ∧ ∀ x ∈ row, x = 1)) ∧
      (¬(p.adaptive_mixup.getD false = true ∧ p.mixup_coeff = none) →
        (load_result split pr vpr vs (some p) n).aug_params = p) := by
  have hn1 : ¬(pr < 0 ∨ 1 < pr) := by
    push_neg
    exact ⟨h0, h1⟩
  have hn2 : ¬(vpr < 0 ∨ 1 < vpr) := by
    push_neg
    exact ⟨h2, h3⟩
  refine ⟨by simp [load_dataset, hn1, hn2], ?_, ?_⟩
  · rintro ⟨ha, hm⟩
    refine ⟨by simp [load_result, resolve_aug_params, ha, hm], by simp [onesMatrix], ?_⟩
    intro row hrow
    have hr := List.eq_of_mem_replicate hrow
    subst hr
    exact ⟨List.length_replicate _ _, fun x hx => List.eq_of_mem_replicate hx⟩
  · intro hcon
    have hb : ¬((p.adaptive_mixup.getD false && p.mixup_coeff.isNone) = true) := by
      simp only [Bool.and_eq_true, Option.isNone_iff_eq_none]
      exact hcon
    simp [load_result, resolve_aug_params, hb]

theorem load_aug_params_mutation_witness :
    ((0 : ℚ) ≤ 1 ∧ (0 : ℚ) ≤ 0 ∧
      (AugParams.adaptive_mixup { adaptive_mixup := some true }).getD false = true ∧
      AugParams.mixup_coeff { adaptive_mixup := some true } = none) ∧
    ((load_dataset Split.train "cifar10" 1 1 0 false
          (some { adaptive_mixup := some true }) 3).2
        = Except.ok (load_result Split.train 1 0 false
            (some { adaptive_mixup := some true }) 3) ∧
      ((AugParams.adaptive_mixup { adaptive_mixup := some true }).getD false = true ∧
          AugParams.mixup_coeff { adaptive_mixup := some true } = none →
        (load_result Split.train 1 0 false
              (some { adaptive_mixup := some true }) 3).aug_params
            = { ({ adaptive_mixup := some true } : AugParams) with
                mixup_coeff := some (onesMatrix
                  ((AugParams.ensemble_size { adaptive_mixup := some true }).getD 1) 3) } ∧
          (onesMatrix ((AugParams.ensemble_size { adaptive_mixup := some true }).getD 1) 3).length
              = (AugParams.ensemble_size { adaptive_mixup := some true }).getD 1 ∧
          (∀ row ∈ onesMatrix
              ((AugParams.ensemble_size { adaptive_mixup := some true }).getD 1) 3,
            row.length = 3 ∧ ∀ x ∈ row, x = 1)) ∧
      (¬((AugParams.adaptive_mixup { adaptive_mixup := some true }).getD false = true ∧
          AugParams.mixup_coeff { adaptive_mixup := some true } = none) →
        (load_result Split.train 1 0 false
            (some { adaptive_mixup := some true }) 3).aug_params
          = { adaptive_mixup := some true })) :=
  ⟨⟨zero_le_one, le_refl 0, rfl, rfl⟩,
   load_aug_params_mutation Split.train "cifar10" 1 1 0 false
     { adaptive_mixup := some true } 3 zero_le_one (le_refl 1) (le_refl 0) zero_le_one⟩

theorem augment_and_mix_convex_witness :
    (0 : ℚ) ≤ 0 ∧ (0 : ℚ) ≤ 1 ∧ 0 < ([4914/10000] : Img).length ∧
    (0 ≤ (augment_and_mix [4914/10000] 0 1 1 id (MixRandomness.mk 0 [] [])).getD 0 0 ∧
      (augment_and_mix [4914/10000] 0 1 1 id (MixRandomness.mk 0 [] [])).getD 0 0 ≤ 0) :=
  ⟨le_refl 0, zero_le_one, by decide,
   augment_and_mix_convex [4914/10000] 0 1 1 id (MixRandomness.mk 0 [] [])
     (fun _ => rfl) (le_refl 0) zero_le_one
     (by
       intro i hi_
       obtain rfl := Nat.lt_one_iff.mp hi_
       simp [branch_weights])
     (by simp [Finset.sum_range_one, branch_weights])
     0 (by decide) 0 0
     (by
       intro i hi_
       obtain rfl := Nat.lt_one_iff.mp hi_
       simp [branch_image, branch_depths, normalize_convert_image, normalize_go,
         channel_mean, channel_std])
     (by
       intro i hi_
       obtain rfl := Nat.lt_one_iff.mp hi_
       simp [branch_image, branch_depths, normalize_convert_image, normalize_go,
         channel_mean, channel_std])
     (by simp [normalize_convert_image, normalize_go, channel_mean, channel_std])
     (by simp [normalize_convert_image, normalize_go, channel_mean, channel_std])⟩
